import Mathlib

/-!
Verification development for the fooddb embedding backfill pipeline and
vector search engine (`src/fooddb/embeddings.py`).

The Python source is shallowly embedded: the sqlite-vec virtual table
`food_embeddings` (keyed by rowid = fdc_id, `INSERT OR REPLACE` writes)
becomes an association list with an upsert operation; the `food` table
becomes a list of (fdc_id, description) rows; the OpenAI client, the
wall clock and thread-pool completion order become oracles supplied in a
`RunEnv`.  Vector components are rationals and the L2 distance computed
by the store is an oracle parameter (the claims under study concern
ordering and the similarity formula, not the metric itself).
-/

namespace FoodDB

/-- An embedding vector (fixed-width list of floats in the source). -/
abbrev Vec := List ℚ

/-- The `food_embeddings` vec0 virtual table: rows (rowid = fdc_id, embedding).
`INSERT OR REPLACE` keyed on rowid is modelled by `upsert`. -/
abbrev EmbStore := List (Nat × Vec)

/-- The `food` table rows used by the pipeline: (fdc_id, description),
in the table's scan order. -/
abbrev Catalog := List (Nat × String)

/-- Does the store hold a row with the given rowid? -/
def hasKey (s : EmbStore) (id : Nat) : Bool :=
  s.any (fun e => e.1 == id)

/-- The stored vector for a rowid (first matching row). -/
def lookupVec (s : EmbStore) (id : Nat) : Option Vec :=
  (s.find? (fun e => e.1 == id)).map Prod.snd

/-- Number of rows the store holds for a given rowid. -/
def countKey (s : EmbStore) (id : Nat) : Nat :=
  (s.filter (fun e => e.1 == id)).length

/-- `INSERT OR REPLACE INTO food_embeddings (rowid, embedding) VALUES (?, ?)`:
replace the row with this rowid if present, otherwise append a new row. -/
def upsert (s : EmbStore) (id : Nat) (v : Vec) : EmbStore :=
  if hasKey s id then s.map (fun e => if e.1 == id then (id, v) else e)
  else s ++ [(id, v)]

/-- `executemany` of the `INSERT OR REPLACE` statement over a value list
(the bulk insert of `process_embedding_batch`). -/
def upsertAll (s : EmbStore) (vs : List (Nat × Vec)) : EmbStore :=
  vs.foldl (fun st p => upsert st p.1 p.2) s

/-- `store_embedding`: single-row write path.  `storeOk` is the outcome of
the underlying SQL insert; on failure the function logs and returns
`False` with the store unchanged. -/
def store_embedding (storeOk : Bool) (fdc_id : Nat) (embedding : Vec)
    (s : EmbStore) : EmbStore × Bool :=
  if storeOk then (upsert s fdc_id embedding, true) else (s, false)

/-- `process_embedding_batch`: one provider call plus one transactional bulk
store commit.  `provider` models `client.embeddings.create` (`none` is a
raised provider error, caught by the outer `except` which rolls back and
returns 0); `storeOk` is the outcome of the bulk insert + `COMMIT` (a
failure is caught, rolled back, and yields `success_count = 0`);
`clientOk` models `if not client`.  When the provider returns more
vectors than inputs, building `values_to_insert` raises an index error
into `fdc_ids`, which is caught the same way (0, nothing committed);
when it returns fewer, only that prefix is committed (`enumerate` over
`response.data`).  Returns the updated store and `success_count`. -/
def process_embedding_batch (provider : List String → Option (List Vec))
    (storeOk clientOk : Bool) (batch : List (Nat × String))
    (store : EmbStore) : EmbStore × Nat :=
  if !clientOk || batch.isEmpty then (store, 0)
  else
    match provider (batch.map Prod.snd) with
    | none => (store, 0)
    | some resp =>
      if batch.length < resp.length then (store, 0)
      else
        let values := List.zip (batch.map Prod.fst) resp
        if storeOk then (upsertAll store values, values.length) else (store, 0)

/-- `generate_embedding`: query-embedding for search; `none` when the client
is unconfigured or the API call fails (`embedQ` is the API outcome). -/
def generate_embedding (clientOk : Bool) (embedQ : String → Option Vec)
    (text : String) : Option Vec :=
  if !clientOk then none else embedQ text

/-- The `NOT EXISTS` filter shared by the count and batch queries of
`generate_batch_embeddings`: catalog rows without a stored vector. -/
def missing (catalog : Catalog) (s : EmbStore) : Catalog :=
  catalog.filter (fun r => !(hasKey s r.1))

/-- `SELECT COUNT(f.fdc_id) FROM food f WHERE NOT EXISTS (...)`. -/
def countMissing (catalog : Catalog) (s : EmbStore) : Nat :=
  (missing catalog s).length

/-- `SELECT f.fdc_id, f.description FROM food f WHERE NOT EXISTS (...) LIMIT ?`. -/
def selectMissing (catalog : Catalog) (s : EmbStore) (limit : Nat) : Catalog :=
  (missing catalog s).take limit

/-- `api_batch_size = 100`: the fixed provider sub-batch size. -/
def api_batch_size : Nat := 100

/-- Fuel-driven chunking helper; fuel is instantiated with the list length. -/
def chunksF : Nat → Nat → List (Nat × String) → List (List (Nat × String))
  | 0, _, _ => []
  | _, _, [] => []
  | fuel + 1, n, l => l.take n :: chunksF fuel n (l.drop n)

/-- `[foods[i:i+api_batch_size] for i in range(0, len(foods), api_batch_size)]`:
partition a fetch-window into sub-batches of at most `n` in order. -/
def chunks (n : Nat) (l : List (Nat × String)) : List (List (Nat × String)) :=
  chunksF l.length n l

/-- Oracles for one backfill run: the catalog, the provider's embedding of
each text, per-dispatch provider and store failure outcomes (indexed by a
dispatch counter, in submission order), the wall clock (elapsed seconds at
the t-th `time.time()` reading used in a deadline decision), and — for the
bounded-parallel branch — the completion order of the w-th fetch-window's
futures (`perm w`, submission indices in completion order) and how many of
them complete before `as_completed`'s deadline (`nDone w`). -/
structure RunEnv where
  catalog : Catalog
  embedOf : String → Vec
  provFail : Nat → Bool
  storeFail : Nat → Bool
  clock : Nat → ℚ
  perm : Nat → List Nat
  nDone : Nat → Nat

/-- The provider behaviour of the i-th dispatched sub-batch: either raise
(`provFail i`) or return one vector per input text, in input order. -/
def providerAt (env : RunEnv) (i : Nat) : List String → Option (List Vec) :=
  fun ts => if env.provFail i then none else some (ts.map env.embedOf)

/-- The i-th dispatch of `process_embedding_batch` during a run (the client
is configured, or the run would have terminated at init). -/
def dispatchBatch (env : RunEnv) (i : Nat) (b : List (Nat × String))
    (s : EmbStore) : EmbStore × Nat :=
  process_embedding_batch (providerAt env i) (!env.storeFail i) true b s

/-- Mutable state of `generate_batch_embeddings`: the store, the
`total_processed` counter, the fdc_id lists of the sub-batches dispatched
so far (in dispatch order), plus model counters: clock readings consumed
(`tick`), sub-batches dispatched (`call`), fetch-windows finished
(`window`). -/
structure RunState where
  store : EmbStore
  processed : Nat
  dispatched : List (List Nat)
  tick : Nat
  call : Nat
  window : Nat

/-- The sequential branch of one fetch-window: process sub-batches one at a
time, re-checking the wall clock against the timeout before each (`break`
on exceedance). -/
def seqWindow (env : RunEnv) (timeout : ℚ) :
    List (List (Nat × String)) → RunState → RunState
  | [], s => s
  | b :: rest, s =>
    if timeout < env.clock s.tick then { s with tick := s.tick + 1 }
    else
      let out := dispatchBatch env s.call b s.store
      seqWindow env timeout rest
        { store := out.1, processed := s.processed + out.2,
          dispatched := s.dispatched ++ [b.map Prod.fst],
          tick := s.tick + 1, call := s.call + 1, window := s.window }

/-- The bounded-parallel branch of one fetch-window: all sub-batches are
submitted to the pool (one dispatch counter each, in submission order) and
all of them eventually run — the executor's scope exit waits for in-flight
work — so every dispatch's store effect lands, in completion order
(`perm`).  Only the results collected by `as_completed` before its
deadline (`nDone`) are added to `total_processed`; if some future has not
completed by then, `as_completed` raises and the run ends (second
component `true`). -/
def parWindow (env : RunEnv) (bs : List (List (Nat × String)))
    (s : RunState) : RunState × Bool :=
  let cnt : Nat → Nat := fun i => (dispatchBatch env (s.call + i) (bs.getD i []) s.store).2
  let newStore :=
    (env.perm s.window).foldl
      (fun st i => (dispatchBatch env (s.call + i) (bs.getD i []) st).1) s.store
  let counted := (((env.perm s.window).take (env.nDone s.window)).map cnt).sum
  ({ store := newStore, processed := s.processed + counted,
     dispatched := s.dispatched ++ bs.map (fun b => b.map Prod.fst),
     tick := s.tick + 1, call := s.call + bs.length, window := s.window + 1 },
   decide (env.nDone s.window < bs.length))

/-- The `while total_processed < total_missing` loop.  Each iteration:
deadline check (a normal `break` on exceedance), fetch-window select
(`break` when empty), partition into sub-batches of `api_batch_size`, then
the sequential or bounded-parallel branch; a parallel window whose
`as_completed` timed out ends the run (the exception is caught by the
function's outer handler).  `fuel` is a model device bounding the number
of iterations; claims quantify over it. -/
def runLoop (env : RunEnv) (parallel batch_size : Nat) (timeout : ℚ)
    (total_missing : Nat) : Nat → RunState → RunState
  | 0, s => s
  | fuel + 1, s =>
    if total_missing ≤ s.processed then s
    else if timeout < env.clock s.tick then { s with tick := s.tick + 1 }
    else
      let s1 : RunState := { s with tick := s.tick + 1 }
      let foods := selectMissing env.catalog s1.store batch_size
      if foods.isEmpty then s1
      else
        let bs := chunks api_batch_size foods
        if parallel ≤ 1 then
          let s2 := seqWindow env timeout bs s1
          runLoop env parallel batch_size timeout total_missing fuel
            { s2 with window := s2.window + 1 }
        else
          let r := parWindow env bs s1
          if r.2 then r.1
          else runLoop env parallel batch_size timeout total_missing fuel r.1

/-- Observable outcome of one backfill run: `total_processed`, the target
(`total_missing` at run start), the final store, and the dispatched
sub-batches (empty list = the provider was never invoked). -/
structure RunResult where
  processed : Nat
  target : Nat
  store : EmbStore
  dispatched : List (List Nat)

/-- `generate_batch_embeddings`: terminate at once when the client is not
configured; count the missing set once and terminate when it is zero;
otherwise run the processing loop.  All exceptions are caught by the outer
handler, so the function always returns normally. -/
def generate_batch_embeddings (env : RunEnv) (clientOk : Bool)
    (batch_size parallel : Nat) (timeout : ℚ) (fuel : Nat)
    (s0 : EmbStore) : RunResult :=
  if !clientOk then ⟨0, 0, s0, []⟩
  else
    let tm := countMissing env.catalog s0
    if tm = 0 then ⟨0, 0, s0, []⟩
    else
      let sE := runLoop env parallel batch_size timeout tm fuel
        ⟨s0, 0, [], 0, 0, 0⟩
      ⟨sE.processed, tm, sE.store, sE.dispatched⟩

/-- `search_food_by_text`: empty result when the client is unconfigured or
the query embedding fails; otherwise the KNN `MATCH ... ORDER BY distance
LIMIT ?` over `food_embeddings` (the vec0 table returns the `limit`
nearest rows by the store's L2 `distance`, an oracle here), joined with
`food` on `fe.rowid = f.fdc_id` (rows without a catalog match drop out),
reporting `1 - (distance / 2)` as similarity, with the SQL `LIMIT`
bounding the final row count. -/
def search_food_by_text (clientOk : Bool) (embedQ : String → Option Vec)
    (dist : Vec → Vec → ℚ) (catalog : Catalog) (store : EmbStore)
    (query : String) (limit : Nat) : List (Nat × String × ℚ) :=
  if !clientOk then []
  else
    match generate_embedding clientOk embedQ query with
    | none => []
    | some qv =>
      let knn := (store.mergeSort
        (fun a b => decide (dist qv a.2 ≤ dist qv b.2))).take limit
      let joined := knn.flatMap (fun e =>
        (catalog.filter (fun r => r.1 == e.1)).map
          (fun r => (e.1, r.2, 1 - dist qv e.2 / 2)))
      joined.take limit

/-! ### Helper lemmas about the store -/

theorem countKey_nil (j : Nat) : countKey [] j = 0 := rfl

theorem countKey_eq_zero_of_not_hasKey (s : EmbStore) (id : Nat)
    (h : hasKey s id = false) : countKey s id = 0 := by
  induction s with
  | nil => rfl
  | cons e t ih =>
    simp only [hasKey, List.any_cons, Bool.or_eq_false_iff] at h
    simp only [countKey, List.filter_cons, h.1]
    exact ih h.2

theorem countKey_pos_of_hasKey (s : EmbStore) (id : Nat)
    (h : hasKey s id = true) : 0 < countKey s id := by
  induction s with
  | nil => simp [hasKey] at h
  | cons e t ih =>
    by_cases he : e.1 = id
    · simp [countKey, List.filter_cons, he]
    · have ht : hasKey t id = true := by
        simpa [hasKey, he] using h
      simpa [countKey, List.filter_cons, he] using ih ht

theorem countKey_replace (s : EmbStore) (i : Nat) (v : Vec) (j : Nat) :
    countKey (s.map (fun e => if e.1 == i then (i, v) else e)) j
      = if j = i then countKey s i else countKey s j := by
  induction s with
  | nil => simp [countKey]
  | cons e t ih =>
    by_cases he : e.1 = i
    · by_cases hj : j = i
      · simp [countKey, List.filter_cons, he, hj] at ih ⊢
        omega
      · simp [countKey, List.filter_cons, he, hj, Ne.symm hj] at ih ⊢
        simpa [he, hj] using ih
    · by_cases hj : j = i
      · simp [countKey, List.filter_cons, he, hj] at ih ⊢
        simpa using ih
      · simp only [countKey, List.map_cons, List.filter_cons] at ih ⊢
        by_cases hej : e.1 = j
        · simp [he, hej, hj] at ih ⊢
          simpa [hj] using ih
        · simp [he, hej, hj] at ih ⊢
          simpa [hj] using ih

theorem countKey_upsert_other (s : EmbStore) (i : Nat) (v : Vec) (j : Nat)
    (h : j ≠ i) : countKey (upsert s i v) j = countKey s j := by
  unfold upsert
  cases hk : hasKey s i with
  | true =>
    rw [if_pos rfl, countKey_replace]
    simp [h]
  | false =>
    rw [if_neg (by simp)]
    simp [countKey, List.filter_append, List.filter_cons, Ne.symm h]

theorem countKey_upsert_self (s : EmbStore) (i : Nat) (v : Vec)
    (h : countKey s i ≤ 1) : countKey (upsert s i v) i = 1 := by
  unfold upsert
  cases hk : hasKey s i with
  | true =>
    have hpos := countKey_pos_of_hasKey s i hk
    rw [if_pos rfl, countKey_replace, if_pos rfl]
    omega
  | false =>
    have hz := countKey_eq_zero_of_not_hasKey s i hk
    rw [if_neg (by simp)]
    simp [countKey, List.filter_append, List.filter_cons] at hz ⊢
    simpa [countKey] using hz

theorem find?_replace (s : EmbStore) (i : Nat) (v : Vec) :
    ((s.map (fun e => if e.1 == i then (i, v) else e)).find?
        (fun e => e.1 == i))
      = if hasKey s i then some (i, v) else none := by
  induction s with
  | nil => simp [hasKey]
  | cons e t ih =>
    by_cases he : e.1 = i
    · simp [hasKey, he]
    · have he' : (e.1 == i) = false := by simpa using he
      rw [List.map_cons, List.find?_cons_of_neg _ (by simp [he', he]), ih]
      unfold hasKey
      rw [List.any_cons, he', Bool.false_or]

theorem lookupVec_upsert_self (s : EmbStore) (i : Nat) (v : Vec) :
    lookupVec (upsert s i v) i = some v := by
  unfold upsert lookupVec
  cases hk : hasKey s i with
  | true =>
    rw [if_pos rfl, find?_replace, if_pos hk]
    rfl
  | false =>
    rw [if_neg (by simp)]
    have hnone : s.find? (fun e => e.1 == i) = none := by
      rw [List.find?_eq_none]
      intro x hx hpx
      have : hasKey s i = true := by
        unfold hasKey
        rw [List.any_eq_true]
        exact ⟨x, hx, hpx⟩
      rw [hk] at this
      exact Bool.false_ne_true this
    simp [hnone]

/-- C3: storing a vector for the same identifier twice through the
`INSERT OR REPLACE` upsert path leaves exactly one stored row for that
identifier, holding the last vector written, and an upsert never creates
a duplicate row — a store satisfying "at most one row per identifier"
still satisfies it after any upsert. -/
theorem upsert_last_write_wins (s : EmbStore) (i : Nat) (v1 v2 : Vec)
    (hinv : ∀ j, countKey s j ≤ 1) :
    lookupVec (upsert (upsert s i v1) i v2) i = some v2 ∧
    countKey (upsert (upsert s i v1) i v2) i = 1 ∧
    ∀ id v j, countKey (upsert s id v) j ≤ 1 := by
  have hpres : ∀ id v j, countKey (upsert s id v) j ≤ 1 := by
    intro id v j
    by_cases hji : j = id
    · subst hji
      exact le_of_eq (countKey_upsert_self s j v (hinv j))
    · rw [countKey_upsert_other s id v j hji]
      exact hinv j
  refine ⟨lookupVec_upsert_self _ i v2, ?_, hpres⟩
  exact countKey_upsert_self _ i v2 (hpres i v1 i)

/-- Witness for C3 at a concrete store and identifier. -/
theorem upsert_last_write_wins_witness :
    lookupVec (upsert (upsert [] 7 [1]) 7 [2]) 7 = some [2] ∧
    countKey (upsert (upsert [] 7 [1]) 7 [2]) 7 = 1 ∧
    ∀ id v j, countKey (upsert [] id v) j ≤ 1 :=
  upsert_last_write_wins [] 7 [1] [2] (fun j => by simp [countKey])

theorem search_empty_of_no_client (embedQ : String → Option Vec)
    (dist : Vec → Vec → ℚ) (catalog : Catalog) (store : EmbStore)
    (query : String) (limit : Nat) :
    search_food_by_text false embedQ dist catalog store query limit = [] := by
  simp [search_food_by_text]

/-- C5: with no embedding provider configured, `search_food_by_text`
returns the empty result list for every query and limit (and, being a
total function, raises no error to the caller). -/
theorem search_unconfigured_empty (embedQ : String → Option Vec)
    (dist : Vec → Vec → ℚ) (catalog : Catalog) (store : EmbStore)
    (query : String) (limit : Nat) :
    search_food_by_text false embedQ dist catalog store query limit = [] :=
  search_empty_of_no_client embedQ dist catalog store query limit

/-- C10: on a non-empty sub-batch for which the provider returns exactly
one vector per input text, `process_embedding_batch` either leaves the
store unchanged and reports 0 (failed provider call or failed commit), or
reports the full sub-batch length; no strictly intermediate success count
is possible. -/
theorem process_embedding_batch_all_or_nothing
    (provider : List String → Option (List Vec)) (storeOk : Bool)
    (batch : List (Nat × String)) (store : EmbStore) (resp : List Vec)
    (hne : batch ≠ [])
    (hresp : provider (batch.map Prod.snd) = some resp)
    (hlen : resp.length = batch.length) :
    process_embedding_batch provider storeOk true batch store = (store, 0) ∨
    (process_embedding_batch provider storeOk true batch store).2
      = batch.length := by
  unfold process_embedding_batch
  rw [hresp]
  have hempty : batch.isEmpty = false := by
    cases batch with
    | nil => exact absurd rfl hne
    | cons a t => rfl
  cases storeOk with
  | false => simp [hempty, hlen]
  | true =>
    right
    simp [hempty, hlen, List.length_zip]

/-- Witness for C10 at a concrete sub-batch, provider and store. -/
theorem process_embedding_batch_all_or_nothing_witness :
    process_embedding_batch (fun _ => some [[1]]) true true [(1, "a")] []
        = ([], 0) ∨
    (process_embedding_batch (fun _ => some [[1]]) true true [(1, "a")] []).2
        = [(1, "a")].length :=
  process_embedding_batch_all_or_nothing (fun _ => some [[1]]) true
    [(1, "a")] [] [[1]] (by simp) rfl rfl

/-! ### Helper lemmas for the search path -/

theorem pairwise_flatMap_of {α β : Type} (R : β → β → Prop) (S : α → α → Prop)
    (f : α → List β) (l : List α) (hS : l.Pairwise S)
    (hcross : ∀ a b, S a b → ∀ x ∈ f a, ∀ y ∈ f b, R x y)
    (hwithin : ∀ a ∈ l, ∀ x ∈ f a, ∀ y ∈ f a, R x y) :
    (l.flatMap f).Pairwise R := by
  induction l with
  | nil => simp
  | cons a t ih =>
    obtain ⟨ha, ht⟩ := List.pairwise_cons.mp hS
    rw [List.flatMap_cons, List.pairwise_append]
    refine ⟨?_, ?_, ?_⟩
    · exact List.pairwise_of_forall_mem_list
        (fun x hx y hy => hwithin a (by simp) x hx y hy)
    · exact ih ht (fun b hb => hwithin b (List.mem_cons_of_mem a hb))
    · intro x hx y hy
      obtain ⟨b, hb, hyb⟩ := List.mem_flatMap.mp hy
      exact hcross a b (ha b hb) x hx y hyb

theorem length_flatMap_le_of_bounded {α β : Type} (f : α → List β)
    (l : List α) (h : ∀ a ∈ l, (f a).length ≤ 1) :
    (l.flatMap f).length ≤ l.length := by
  induction l with
  | nil => simp
  | cons a t ih =>
    rw [List.flatMap_cons, List.length_append, List.length_cons]
    have h1 := h a (by simp)
    have h2 := ih (fun b hb => h b (List.mem_cons_of_mem a hb))
    omega

theorem filter_key_length_le_one (catalog : Catalog) (k : Nat)
    (h : (catalog.map Prod.fst).Nodup) :
    (catalog.filter (fun r => r.1 == k)).length ≤ 1 := by
  induction catalog with
  | nil => simp
  | cons r t ih =>
    rw [List.map_cons, List.nodup_cons] at h
    by_cases hr : r.1 = k
    · have hnil : t.filter (fun e => e.1 == k) = [] := by
        rw [List.filter_eq_nil_iff]
        intro x hx
        simp only [beq_iff_eq]
        intro hxk
        exact h.1 (by
          rw [List.mem_map]
          exact ⟨x, hx, by rw [hxk, hr]⟩)
      simp [List.filter_cons, hr, hnil]
    · have hr' : ((r.1 == k) : Bool) = false := by simpa using hr
      simpa [List.filter_cons, hr'] using ih h.2

/-- Unfolding of `search_food_by_text` once the query embedding is known. -/
theorem search_eq_of_some (embedQ : String → Option Vec)
    (dist : Vec → Vec → ℚ) (catalog : Catalog) (store : EmbStore)
    (query : String) (limit : Nat) (qv : Vec)
    (hq : embedQ query = some qv) :
    search_food_by_text true embedQ dist catalog store query limit =
      (((store.mergeSort
          (fun a b => decide (dist qv a.2 ≤ dist qv b.2))).take limit).flatMap
        (fun e => (catalog.filter (fun r => r.1 == e.1)).map
          (fun r => (e.1, r.2, 1 - dist qv e.2 / 2)))).take limit := by
  unfold search_food_by_text generate_embedding
  simp [hq]

/-- C4: every `search_food_by_text` result list is sorted by non-increasing
similarity; each result row's similarity is `1 - distance / 2` for the L2
distance between the query vector and that row's stored vector (so the
ordering is by ascending distance); and no minimum-similarity filter is
applied — when the index fits inside the limit, every indexed vector with
a catalog row appears in the result whatever its similarity. -/
theorem search_sorted_by_similarity (clientOk : Bool)
    (embedQ : String → Option Vec) (dist : Vec → Vec → ℚ)
    (catalog : Catalog) (store : EmbStore) (query : String) (limit : Nat)
    (qv : Vec) (hq : generate_embedding clientOk embedQ query = some qv) :
    (search_food_by_text clientOk embedQ dist catalog store query
        limit).Pairwise (fun x y => y.2.2 ≤ x.2.2) ∧
    (∀ e ∈ search_food_by_text clientOk embedQ dist catalog store query
        limit, ∃ v, (e.1, v) ∈ store ∧ e.2.2 = 1 - dist qv v / 2) ∧
    ((catalog.map Prod.fst).Nodup → store.length ≤ limit →
      ∀ p ∈ store, ∀ d, (p.1, d) ∈ catalog →
        (p.1, d, 1 - dist qv p.2 / 2) ∈
          search_food_by_text clientOk embedQ dist catalog store query
            limit) := by
  have hc : clientOk = true := by
    cases clientOk
    · simp [generate_embedding] at hq
    · rfl
  subst hc
  have hq' : embedQ query = some qv := by
    simpa [generate_embedding] using hq
  rw [search_eq_of_some embedQ dist catalog store query limit qv hq']
  set le : (Nat × Vec) → (Nat × Vec) → Bool :=
    fun a b => decide (dist qv a.2 ≤ dist qv b.2) with hle
  set f : (Nat × Vec) → List (Nat × String × ℚ) :=
    fun e => (catalog.filter (fun r => r.1 == e.1)).map
      (fun r => (e.1, r.2, 1 - dist qv e.2 / 2)) with hf
  have hmemf : ∀ e x, x ∈ f e →
      x.1 = e.1 ∧ x.2.2 = 1 - dist qv e.2 / 2 ∧ (x.1, x.2.1) ∈ catalog := by
    intro e x hx
    rw [hf, List.mem_map] at hx
    obtain ⟨r, hr, hxr⟩ := hx
    rw [List.mem_filter] at hr
    subst hxr
    refine ⟨rfl, rfl, ?_⟩
    have hre : r.1 = e.1 := by simpa using hr.2
    show (e.1, r.2) ∈ catalog
    rw [← hre]
    simpa using hr.1
  have hsorted : (store.mergeSort le).Pairwise (fun a b => le a b) := by
    apply List.sorted_mergeSort
    · intro a b c
      rw [hle]
      simp only [decide_eq_true_eq]
      exact le_trans
    · intro a b
      rw [hle]
      simp only [Bool.or_eq_true, decide_eq_true_eq]
      exact le_total _ _
  have hknn : ((store.mergeSort le).take limit).Pairwise
      (fun a b => dist qv a.2 ≤ dist qv b.2) := by
    have := List.Pairwise.sublist (List.take_sublist limit _) hsorted
    exact this.imp (by
      intro a b hab
      rw [hle] at hab
      simpa using hab)
  refine ⟨?_, ?_, ?_⟩
  · apply List.Pairwise.sublist (List.take_sublist limit _)
    apply pairwise_flatMap_of _ (fun a b => dist qv a.2 ≤ dist qv b.2) f _
      hknn
    · intro a b hab x hx y hy
      obtain ⟨-, hx2, -⟩ := hmemf a x hx
      obtain ⟨-, hy2, -⟩ := hmemf b y hy
      rw [hx2, hy2]
      linarith
    · intro a _ x hx y hy
      obtain ⟨-, hx2, -⟩ := hmemf a x hx
      obtain ⟨-, hy2, -⟩ := hmemf a y hy
      rw [hx2, hy2]
  · intro e he
    have he' := (List.take_sublist limit _).subset he
    obtain ⟨a, ha, hea⟩ := List.mem_flatMap.mp he'
    have hastore : a ∈ store := by
      have := (List.take_sublist limit _).subset ha
      simpa using this
    obtain ⟨he1, he2, -⟩ := hmemf a e hea
    exact ⟨a.2, by rw [he1]; simpa using hastore, he2⟩
  · intro hnodup hlen p hp d hd
    have hall : (store.mergeSort le).take limit = store.mergeSort le := by
      apply List.take_of_length_le
      simpa using hlen
    have hpknn : p ∈ (store.mergeSort le).take limit := by
      rw [hall]
      simpa using hp
    have htarget : (p.1, d, 1 - dist qv p.2 / 2) ∈ f p := by
      rw [hf, List.mem_map]
      exact ⟨(p.1, d), List.mem_filter.mpr ⟨hd, by simp⟩, rfl⟩
    have hjoined : (p.1, d, 1 - dist qv p.2 / 2) ∈
        ((store.mergeSort le).take limit).flatMap f :=
      List.mem_flatMap.mpr ⟨p, hpknn, htarget⟩
    have hjlen : (((store.mergeSort le).take limit).flatMap f).length
        ≤ limit := by
      calc (((store.mergeSort le).take limit).flatMap f).length
          ≤ ((store.mergeSort le).take limit).length := by
            apply length_flatMap_le_of_bounded
            intro a _
            rw [hf]
            simpa using filter_key_length_le_one catalog a.1 hnodup
        _ ≤ store.length := by rw [hall]; simp
        _ ≤ limit := hlen
    rw [List.take_of_length_le hjlen]
    exact hjoined

/-- A concrete distance oracle (squared L2 distance) for witnesses. -/
def cDist : Vec → Vec → ℚ :=
  fun u v => ((u.zip v).map (fun p => (p.1 - p.2) ^ 2)).sum

/-- A concrete query-embedding oracle for witnesses. -/
def cEmbedQ : String → Option Vec := fun _ => some [1]

/-- Witness for C4 at a concrete query, store and catalog. -/
theorem search_sorted_by_similarity_witness :
    (search_food_by_text true cEmbedQ cDist
        [(1, "apple")] [(1, [1])] "apple" 3).Pairwise
        (fun x y => y.2.2 ≤ x.2.2) ∧
    (∀ e ∈ search_food_by_text true cEmbedQ cDist
        [(1, "apple")] [(1, [1])] "apple" 3,
      ∃ v, (e.1, v) ∈ ([(1, [1])] : EmbStore) ∧
        e.2.2 = 1 - cDist [1] v / 2) ∧
    ((([(1, "apple")] : Catalog).map Prod.fst).Nodup →
      ([(1, [1])] : EmbStore).length ≤ 3 →
      ∀ p ∈ ([(1, [1])] : EmbStore), ∀ d, (p.1, d) ∈
          ([(1, "apple")] : Catalog) →
        (p.1, d, 1 - cDist [1] p.2 / 2) ∈
          search_food_by_text true cEmbedQ cDist
            [(1, "apple")] [(1, [1])] "apple" 3) :=
  search_sorted_by_similarity true cEmbedQ cDist
    [(1, "apple")] [(1, [1])] "apple" 3 [1] rfl

/-- C7: for every query and limit at least 1, `search_food_by_text`
returns at most `limit` rows, and every returned identifier has a
matching catalog row (identifiers in the vector index without a catalog
row are dropped by the join rather than raising an error). -/
theorem search_length_and_catalog (clientOk : Bool)
    (embedQ : String → Option Vec) (dist : Vec → Vec → ℚ)
    (catalog : Catalog) (store : EmbStore) (query : String) (limit : Nat)
    (hk : 1 ≤ limit) :
    (search_food_by_text clientOk embedQ dist catalog store query
        limit).length ≤ limit ∧
    ∀ e ∈ search_food_by_text clientOk embedQ dist catalog store query
        limit, (e.1, e.2.1) ∈ catalog := by
  cases clientOk with
  | false =>
    rw [search_empty_of_no_client]
    simp
  | true =>
    cases hq : embedQ query with
    | none =>
      have : search_food_by_text true embedQ dist catalog store query
          limit = [] := by
        unfold search_food_by_text generate_embedding
        simp [hq]
      rw [this]
      simp
    | some qv =>
      rw [search_eq_of_some embedQ dist catalog store query limit qv hq]
      constructor
      · simpa using List.length_take_le limit _
      · intro e he
        have he' := (List.take_sublist limit _).subset he
        obtain ⟨a, _, hea⟩ := List.mem_flatMap.mp he'
        rw [List.mem_map] at hea
        obtain ⟨r, hr, hxr⟩ := hea
        rw [List.mem_filter] at hr
        have hr1 : r.1 = a.1 := by simpa using hr.2
        subst hxr
        show (a.1, r.2) ∈ catalog
        rw [← hr1]
        simp only [Prod.mk.eta]
        exact hr.1

/-- Witness for C7 at a concrete query, store and catalog (the store row
with identifier 2 has no catalog row and is dropped). -/
theorem search_length_and_catalog_witness :
    (search_food_by_text true cEmbedQ cDist
        [(1, "apple")] [(1, [1]), (2, [0])] "apple" 1).length ≤ 1 ∧
    ∀ e ∈ search_food_by_text true cEmbedQ cDist
        [(1, "apple")] [(1, [1]), (2, [0])] "apple" 1,
      (e.1, e.2.1) ∈ ([(1, "apple")] : Catalog) :=
  search_length_and_catalog true cEmbedQ cDist
    [(1, "apple")] [(1, [1]), (2, [0])] "apple" 1 (by decide)

/-! ### Helper lemmas for the backfill run -/

theorem dispatchBatch_provFail (env : RunEnv) (i : Nat)
    (b : List (Nat × String)) (s : EmbStore)
    (hp : env.provFail i = true) : dispatchBatch env i b s = (s, 0) := by
  unfold dispatchBatch process_embedding_batch providerAt
  cases b with
  | nil => rfl
  | cons x t => simp [hp]

/-- The (fdc_id, vector) value list committed by a successful dispatch. -/
def zipVals (env : RunEnv) (b : List (Nat × String)) : List (Nat × Vec) :=
  (b.map Prod.fst).zip ((b.map Prod.snd).map env.embedOf)

theorem dispatchBatch_success (env : RunEnv) (i : Nat)
    (b : List (Nat × String)) (s : EmbStore) (hb : b ≠ [])
    (hp : env.provFail i = false) (hs : env.storeFail i = false) :
    dispatchBatch env i b s = (upsertAll s (zipVals env b), b.length) := by
  unfold zipVals
  unfold dispatchBatch process_embedding_batch providerAt
  have hempty : b.isEmpty = false := by
    cases b with
    | nil => exact absurd rfl hb
    | cons x t => rfl
  simp [hp, hs, hempty, List.length_zip]

theorem seqWindow_nil (env : RunEnv) (timeout : ℚ) (s : RunState) :
    seqWindow env timeout [] s = s := rfl

theorem seqWindow_cons (env : RunEnv) (timeout : ℚ)
    (b : List (Nat × String)) (rest : List (List (Nat × String)))
    (s : RunState) (hc : ¬ timeout < env.clock s.tick) :
    seqWindow env timeout (b :: rest) s =
      seqWindow env timeout rest
        { store := (dispatchBatch env s.call b s.store).1,
          processed := s.processed + (dispatchBatch env s.call b s.store).2,
          dispatched := s.dispatched ++ [b.map Prod.fst],
          tick := s.tick + 1, call := s.call + 1, window := s.window } := by
  conv in seqWindow env timeout (b :: rest) s => rw [seqWindow]
  rw [if_neg hc]

/-- C2: if the count of records missing an embedding is zero at run start,
the backfill run terminates immediately with `processed = 0` and
`target = 0`, leaves the store untouched and dispatches no sub-batch, so
the embedding provider is never invoked. -/
theorem generate_no_missing (env : RunEnv) (batch_size parallel : Nat)
    (timeout : ℚ) (fuel : Nat) (s0 : EmbStore)
    (h : countMissing env.catalog s0 = 0) :
    generate_batch_embeddings env true batch_size parallel timeout fuel s0
      = ⟨0, 0, s0, []⟩ := by
  unfold generate_batch_embeddings
  simp [h]

/-- Witness environment: an empty catalog, no failures, zero clock. -/
def cEnvEmpty : RunEnv :=
  ⟨[], fun _ => [], fun _ => false, fun _ => false, fun _ => 0,
   fun _ => [], fun _ => 0⟩

/-- Witness for C2 at a concrete environment with an empty missing set. -/
theorem generate_no_missing_witness :
    generate_batch_embeddings cEnvEmpty true 1000 1 600 5 [] = ⟨0, 0, [], []⟩ :=
  generate_no_missing cEnvEmpty 1000 1 600 5 [] rfl

/-- C6: with a timeout of 0 seconds, a non-empty missing set and a wall
clock that has advanced by any positive amount by the first deadline
check, the run terminates (uniformly in the loop fuel) without raising,
with `processed = 0`, strictly less than the target; the deadline is
checked before the first fetch-window is selected. -/
theorem generate_timeout_zero (env : RunEnv) (batch_size parallel : Nat)
    (fuel : Nat) (s0 : EmbStore)
    (hmiss : 0 < countMissing env.catalog s0)
    (hclk : 0 < env.clock 0) :
    (generate_batch_embeddings env true batch_size parallel 0 fuel
        s0).processed = 0 ∧
    (generate_batch_embeddings env true batch_size parallel 0 fuel
        s0).processed <
      (generate_batch_embeddings env true batch_size parallel 0 fuel
        s0).target := by
  have htm : ¬ countMissing env.catalog s0 = 0 := by omega
  have hrun : (runLoop env parallel batch_size 0
      (countMissing env.catalog s0) fuel ⟨s0, 0, [], 0, 0, 0⟩).processed
      = 0 := by
    cases fuel with
    | zero => rfl
    | succ n =>
      rw [runLoop]
      rw [if_neg (show ¬ countMissing env.catalog s0 ≤
            (⟨s0, 0, [], 0, 0, 0⟩ : RunState).processed by
          show ¬ countMissing env.catalog s0 ≤ 0
          omega),
        if_pos (show (0 : ℚ) < env.clock
            (⟨s0, 0, [], 0, 0, 0⟩ : RunState).tick from hclk)]
  constructor
  · unfold generate_batch_embeddings
    simp only [Bool.not_true, Bool.false_eq_true, if_false, htm, if_neg htm]
    exact hrun
  · unfold generate_batch_embeddings
    simp only [Bool.not_true, Bool.false_eq_true, if_false, htm, if_neg htm]
    simpa [hrun] using hmiss

/-- Witness environment for C6: one missing record, clock already at 1
second when first read. -/
def cEnvOne : RunEnv :=
  ⟨[(3, "apple")], fun _ => [], fun _ => false, fun _ => false, fun _ => 1,
   fun _ => [], fun _ => 0⟩

/-- Witness for C6 at a concrete environment. -/
theorem generate_timeout_zero_witness :
    (generate_batch_embeddings cEnvOne true 1000 1 0 5 []).processed = 0 ∧
    (generate_batch_embeddings cEnvOne true 1000 1 0 5 []).processed <
      (generate_batch_embeddings cEnvOne true 1000 1 0 5 []).target :=
  generate_timeout_zero cEnvOne 1000 1 5 [] (by decide) (by norm_num [cEnvOne])

/-- C1 (amended): within one fetch-window processed sequentially,
sub-batch success or failure is independent: when sub-batch 2 of 3 fails
with a provider error while sub-batches 1 and 3 succeed, the failed
sub-batch contributes zero, the later sub-batch is still processed, the
window completes (no exception escapes), and the window's `processed`
increment is exactly the sum of the two successful sub-batch sizes.  (The
failed records stay missing and may be re-selected by a later
fetch-window of the same run — see the counterexample to the original
claim.) -/
theorem seqWindow_failure_independent (env : RunEnv) (timeout : ℚ)
    (b1 b2 b3 : List (Nat × String)) (s : RunState)
    (hb1 : b1 ≠ []) (hb3 : b3 ≠ [])
    (h1p : env.provFail s.call = false) (h1s : env.storeFail s.call = false)
    (h2p : env.provFail (s.call + 1) = true)
    (h3p : env.provFail (s.call + 2) = false)
    (h3s : env.storeFail (s.call + 2) = false)
    (hc0 : ¬ timeout < env.clock s.tick)
    (hc1 : ¬ timeout < env.clock (s.tick + 1))
    (hc2 : ¬ timeout < env.clock (s.tick + 2)) :
    (seqWindow env timeout [b1, b2, b3] s).processed
        = s.processed + b1.length + b3.length ∧
    (seqWindow env timeout [b1, b2, b3] s).dispatched
        = s.dispatched ++
          [b1.map Prod.fst, b2.map Prod.fst, b3.map Prod.fst] := by
  have e1 : seqWindow env timeout [b1, b2, b3] s
      = seqWindow env timeout [b2, b3]
        ⟨upsertAll s.store (zipVals env b1),
          s.processed + b1.length, s.dispatched ++ [b1.map Prod.fst],
          s.tick + 1, s.call + 1, s.window⟩ := by
    rw [seqWindow_cons env timeout b1 [b2, b3] s hc0,
      dispatchBatch_success env s.call b1 s.store hb1 h1p h1s]
  have e2 : seqWindow env timeout [b1, b2, b3] s
      = seqWindow env timeout [b3]
        ⟨upsertAll s.store (zipVals env b1),
          s.processed + b1.length,
          s.dispatched ++ [b1.map Prod.fst] ++ [b2.map Prod.fst],
          s.tick + 2, s.call + 2, s.window⟩ := by
    rw [e1, seqWindow_cons env timeout b2 [b3] _ hc1,
      dispatchBatch_provFail env (s.call + 1) b2 _ h2p]
    rfl
  have e3 : seqWindow env timeout [b1, b2, b3] s
      = seqWindow env timeout []
        ⟨upsertAll (upsertAll s.store (zipVals env b1)) (zipVals env b3),
          s.processed + b1.length + b3.length,
          s.dispatched ++ [b1.map Prod.fst] ++ [b2.map Prod.fst]
            ++ [b3.map Prod.fst],
          s.tick + 3, s.call + 3, s.window⟩ := by
    rw [e2, seqWindow_cons env timeout b3 [] _ hc2,
      dispatchBatch_success env (s.call + 2) b3 _ hb3 h3p h3s]
  rw [e3, seqWindow_nil]
  constructor
  · rfl
  · simp

/-- Witness for the amended C1 at concrete sub-batches and environment. -/
def cEnvSeq : RunEnv :=
  ⟨[], fun _ => [], fun i => i == 1, fun _ => false, fun _ => 0,
   fun _ => [], fun _ => 0⟩

/-- Witness for the amended C1: sub-batch 2 of 3 fails, processed grows by
the sizes of sub-batches 1 and 3. -/
theorem seqWindow_failure_independent_witness :
    (seqWindow cEnvSeq 600 [[(0, "a")], [(1, "b")], [(2, "c")]]
        ⟨[], 0, [], 0, 0, 0⟩).processed = 0 + 1 + 1 ∧
    (seqWindow cEnvSeq 600 [[(0, "a")], [(1, "b")], [(2, "c")]]
        ⟨[], 0, [], 0, 0, 0⟩).dispatched = [] ++ [[0], [1], [2]] :=
  seqWindow_failure_independent cEnvSeq 600 [(0, "a")] [(1, "b")]
    [(2, "c")] ⟨[], 0, [], 0, 0, 0⟩ (by decide) (by decide) rfl rfl rfl
    rfl rfl (by norm_num [cEnvSeq]) (by norm_num [cEnvSeq])
    (by norm_num [cEnvSeq])

/-- Catalog of 201 records for the C1 counterexample: with the fixed
sub-batch size of 100 this yields 3 sub-batches (100, 100, 1) in the
first fetch-window. -/
def cCatalog201 : Catalog := (List.range 201).map (fun i => (i, "x"))

/-- Environment for the C1 counterexample: the provider fails exactly on
the second dispatched sub-batch (dispatch counter 1) and succeeds on
every other dispatch; the clock never reaches the 600 s timeout. -/
def envC1 : RunEnv :=
  ⟨cCatalog201, fun _ => [], fun i => i == 1, fun _ => false, fun _ => 0,
   fun _ => [], fun _ => 0⟩

/-- Counterexample to C1 as stated: sequential run over 201 missing
records, sub-batch 2 of 3 fails (sizes 100, 100, 1), sub-batches 1 and 3
succeed.  The claim predicts `processed` equals the sum of the two
successful sub-batch sizes (100 + 1 = 101) and no retry within the run;
in fact the `while processed < target` loop re-selects the 100 failed
records in a second fetch-window of the same run, dispatches a fourth
sub-batch, and finishes with `processed = 201 ≠ 101`. -/
theorem generate_retries_failed_subbatch :
    (generate_batch_embeddings envC1 true 1000 1 600 5 []).processed = 201 ∧
    (generate_batch_embeddings envC1 true 1000 1 600 5
        []).dispatched.length = 4 ∧
    (generate_batch_embeddings envC1 true 1000 1 600 5 []).processed
      ≠ 100 + 1 := by
  set_option maxRecDepth 100000 in decide

/-! ### Lemmas for the bounded-parallel scenario (C8) -/

theorem chunksF_nil (fuel n : Nat) : chunksF fuel n [] = [] := by
  cases fuel with
  | zero => rfl
  | succ m => rfl

theorem chunksF_step (fuel n : Nat) (l : List (Nat × String)) (h : l ≠ []) :
    chunksF (fuel + 1) n l = l.take n :: chunksF fuel n (l.drop n) := by
  cases l with
  | nil => exact absurd rfl h
  | cons x t => rfl

theorem chunks_eq_three (l : List (Nat × String)) (h : l.length = 250) :
    chunks 100 l
      = [l.take 100, (l.drop 100).take 100, (l.drop 100).drop 100] := by
  have hne : l ≠ [] := by
    intro hl
    rw [hl] at h
    simp at h
  have h1 : (l.drop 100).length = 150 := by
    rw [List.length_drop, h]
  have hne1 : l.drop 100 ≠ [] := by
    intro hl
    rw [hl] at h1
    simp at h1
  have h2 : ((l.drop 100).drop 100).length = 50 := by
    rw [List.length_drop, h1]
  have hne2 : (l.drop 100).drop 100 ≠ [] := by
    intro hl
    rw [hl] at h2
    simp at h2
  unfold chunks
  rw [h]
  rw [show (250 : Nat) = 249 + 1 from rfl, chunksF_step 249 100 l hne]
  rw [show (249 : Nat) = 248 + 1 from rfl,
    chunksF_step 248 100 (l.drop 100) hne1]
  rw [show (248 : Nat) = 247 + 1 from rfl,
    chunksF_step 247 100 ((l.drop 100).drop 100) hne2]
  rw [List.take_of_length_le
      (show ((l.drop 100).drop 100).length ≤ 100 by omega),
    List.drop_eq_nil_of_le
      (show ((l.drop 100).drop 100).length ≤ 100 by omega),
    chunksF_nil]

theorem hasKey_eq_false_iff (s : EmbStore) (id : Nat) :
    hasKey s id = false ↔ id ∉ s.map Prod.fst := by
  unfold hasKey
  rw [List.any_eq_false]
  constructor
  · intro h hmem
    rw [List.mem_map] at hmem
    obtain ⟨e, he, hid⟩ := hmem
    exact absurd (by simpa using hid) (by simpa using h e he)
  · intro h e he
    simp only [beq_iff_eq]
    intro hid
    exact h (List.mem_map.mpr ⟨e, he, hid⟩)

theorem upsert_fresh (s : EmbStore) (id : Nat) (v : Vec)
    (h : hasKey s id = false) : upsert s id v = s ++ [(id, v)] := by
  unfold upsert
  rw [h]
  simp

theorem upsertAll_fresh (s : EmbStore) (vs : List (Nat × Vec))
    (hd : ∀ p ∈ vs, hasKey s p.1 = false) (hn : (vs.map Prod.fst).Nodup) :
    upsertAll s vs = s ++ vs := by
  induction vs generalizing s with
  | nil => simp [upsertAll]
  | cons p rest ih =>
    rw [List.map_cons, List.nodup_cons] at hn
    have hstep : upsert s p.1 p.2 = s ++ [p] :=
      upsert_fresh s p.1 p.2 (hd p (by simp))
    have hd' : ∀ q ∈ rest, hasKey (s ++ [p]) q.1 = false := by
      intro q hq
      rw [hasKey_eq_false_iff]
      rw [List.map_append, List.mem_append]
      rintro (hq1 | hq2)
      · exact absurd hq1 ((hasKey_eq_false_iff s q.1).mp (hd q (by simp [hq])))
      · simp only [List.map_cons, List.map_nil, List.mem_singleton] at hq2
        exact hn.1 (hq2 ▸ List.mem_map.mpr ⟨q, hq, rfl⟩)
    calc upsertAll s (p :: rest)
        = upsertAll (upsert s p.1 p.2) rest := rfl
      _ = upsertAll (s ++ [p]) rest := by rw [hstep]
      _ = (s ++ [p]) ++ rest := ih (s ++ [p]) hd' hn.2
      _ = s ++ p :: rest := by simp

theorem runLoop_done (env : RunEnv) (parallel batch_size : Nat)
    (timeout : ℚ) (total_missing fuel : Nat) (s : RunState)
    (h : total_missing ≤ s.processed) :
    runLoop env parallel batch_size timeout total_missing fuel s = s := by
  cases fuel with
  | zero => rfl
  | succ n =>
    rw [runLoop, if_pos h]

theorem parWindow_three (env : RunEnv) (c1 c2 c3 : List (Nat × String))
    (s : RunState) (hb1 : c1 ≠ []) (hb2 : c2 ≠ []) (hb3 : c3 ≠ [])
    (hp : ∀ i, env.provFail i = false) (hs : ∀ i, env.storeFail i = false)
    (hperm : env.perm s.window = List.range 3)
    (hdone : 3 ≤ env.nDone s.window) :
    parWindow env [c1, c2, c3] s =
      (⟨upsertAll (upsertAll (upsertAll s.store (zipVals env c1))
            (zipVals env c2)) (zipVals env c3),
        s.processed + (c1.length + (c2.length + (c3.length + 0))),
        s.dispatched ++ [c1.map Prod.fst, c2.map Prod.fst, c3.map Prod.fst],
        s.tick + 1, s.call + 3, s.window + 1⟩, false) := by
  have hrange : List.range 3 = [0, 1, 2] := rfl
  simp only [parWindow, hperm, hrange]
  rw [List.take_of_length_le (by simpa using hdone)]
  simp only [List.map_cons, List.map_nil, List.sum_cons, List.sum_nil,
    List.foldl_cons, List.foldl_nil, List.getD_cons_zero,
    List.getD_cons_succ, List.length_cons, List.length_nil, Nat.add_zero]
  rw [dispatchBatch_success env s.call c1 s.store hb1 (hp _) (hs _)]
  rw [dispatchBatch_success env (s.call + 1) c2 _ hb2 (hp _) (hs _)]
  rw [dispatchBatch_success env (s.call + 1) c2 _ hb2 (hp _) (hs _)]
  rw [dispatchBatch_success env (s.call + 2) c3 _ hb3 (hp _) (hs _)]
  rw [dispatchBatch_success env (s.call + 2) c3 _ hb3 (hp _) (hs _)]
  have hfalse : decide (env.nDone s.window < 3) = false := by
    rw [decide_eq_false_iff_not]
    omega
  rw [hfalse]

theorem zipVals_map_fst (env : RunEnv) (b : List (Nat × String)) :
    (zipVals env b).map Prod.fst = b.map Prod.fst := by
  unfold zipVals
  apply List.map_fst_zip
  simp

/-- C8 (concrete scenario): missing set of 250 identifiers, fetch window
1000, sub-batch size 100 (the fixed `api_batch_size`), worker count 3,
timeout 600 s, an error-free provider returning one vector per input, all
three futures completing within the deadline in submission order.  The
run dispatches exactly 3 sub-batches of sizes 100, 100 and 50 (the
fetch-window partitioned in order), finishes with `processed = 250`,
`target = 250`, and the store afterwards holds exactly the 250 distinct
catalog identifiers. -/
theorem generate_parallel_scenario (env : RunEnv) (fuel : Nat)
    (hfuel : 1 ≤ fuel)
    (hlen : env.catalog.length = 250)
    (hnodup : (env.catalog.map Prod.fst).Nodup)
    (hp : ∀ i, env.provFail i = false)
    (hs : ∀ i, env.storeFail i = false)
    (hclk : ∀ t, ¬ (600 : ℚ) < env.clock t)
    (hperm : env.perm 0 = List.range 3)
    (hdone : 3 ≤ env.nDone 0) :
    (generate_batch_embeddings env true 1000 3 600 fuel []).dispatched.map
        List.length = [100, 100, 50] ∧
    (generate_batch_embeddings env true 1000 3 600 fuel []).processed
        = 250 ∧
    (generate_batch_embeddings env true 1000 3 600 fuel []).target = 250 ∧
    (generate_batch_embeddings env true 1000 3 600 fuel []).store.map
        Prod.fst = env.catalog.map Prod.fst := by
  -- the three sub-batches of the single fetch-window
  have hc1len : (env.catalog.take 100).length = 100 := by
    rw [List.length_take]
    omega
  have hc2len : ((env.catalog.drop 100).take 100).length = 100 := by
    rw [List.length_take, List.length_drop]
    omega
  have hc3len : ((env.catalog.drop 100).drop 100).length = 50 := by
    rw [List.length_drop, List.length_drop]
    omega
  have hb1 : env.catalog.take 100 ≠ [] := by
    intro h
    rw [h] at hc1len
    simp at hc1len
  have hb2 : (env.catalog.drop 100).take 100 ≠ [] := by
    intro h
    rw [h] at hc2len
    simp at hc2len
  have hb3 : (env.catalog.drop 100).drop 100 ≠ [] := by
    intro h
    rw [h] at hc3len
    simp at hc3len
  have hcne : env.catalog ≠ [] := by
    intro h
    rw [h] at hlen
    simp at hlen
  have hsplit : env.catalog.take 100 ++
      ((env.catalog.drop 100).take 100 ++ (env.catalog.drop 100).drop 100)
      = env.catalog := by
    rw [List.take_append_drop, List.take_append_drop]
  have hmiss : countMissing env.catalog [] = 250 := by
    unfold countMissing missing
    have hfil : env.catalog.filter (fun r => !(hasKey [] r.1))
        = env.catalog := by
      simp [hasKey]
    rw [hfil, hlen]
  have hfoods : selectMissing env.catalog [] 1000 = env.catalog := by
    unfold selectMissing missing
    have hfil : env.catalog.filter (fun r => !(hasKey [] r.1))
        = env.catalog := by
      simp [hasKey]
    rw [hfil]
    exact List.take_of_length_le (by omega)
  have hchunks : chunks api_batch_size env.catalog
      = [env.catalog.take 100, (env.catalog.drop 100).take 100,
         (env.catalog.drop 100).drop 100] := by
    rw [show api_batch_size = 100 from rfl]
    exact chunks_eq_three env.catalog hlen
  -- key-set bookkeeping
  have hnodup' : ((env.catalog.take 100).map Prod.fst ++
      (((env.catalog.drop 100).take 100).map Prod.fst ++
        ((env.catalog.drop 100).drop 100).map Prod.fst)).Nodup := by
    rw [← List.map_append, ← List.map_append, hsplit]
    exact hnodup
  obtain ⟨n1, n23, d1⟩ := List.nodup_append.mp hnodup'
  obtain ⟨n2, n3, d23⟩ := List.nodup_append.mp n23
  -- evaluate the run
  cases fuel with
  | zero => omega
  | succ f =>
    have hrun : runLoop env 3 1000 600 250 (f + 1) ⟨[], 0, [], 0, 0, 0⟩
        = ⟨upsertAll (upsertAll (upsertAll []
              (zipVals env (env.catalog.take 100)))
              (zipVals env ((env.catalog.drop 100).take 100)))
              (zipVals env ((env.catalog.drop 100).drop 100)),
            0 + ((env.catalog.take 100).length +
              (((env.catalog.drop 100).take 100).length +
                (((env.catalog.drop 100).drop 100).length + 0))),
            [] ++ [(env.catalog.take 100).map Prod.fst,
              ((env.catalog.drop 100).take 100).map Prod.fst,
              ((env.catalog.drop 100).drop 100).map Prod.fst],
            0 + 1 + 1, 0 + 3, 0 + 1⟩ := by
      rw [runLoop]
      rw [if_neg (show ¬ (250 : Nat) ≤
          (⟨[], 0, [], 0, 0, 0⟩ : RunState).processed by
        show ¬ (250 : Nat) ≤ 0
        omega)]
      rw [if_neg (show ¬ (600 : ℚ) < env.clock
          (⟨[], 0, [], 0, 0, 0⟩ : RunState).tick from hclk 0)]
      dsimp only
      rw [hfoods]
      rw [if_neg (show ¬ env.catalog.isEmpty = true by
        simpa [List.isEmpty_iff] using hcne)]
      rw [hchunks]
      rw [if_neg (show ¬ (3 : Nat) ≤ 1 by omega)]
      rw [parWindow_three env _ _ _ ⟨[], 0, [], 0 + 1, 0, 0⟩ hb1 hb2 hb3
        hp hs hperm hdone]
      dsimp only
      rw [if_neg (show ¬ (false = true) by simp)]
      rw [runLoop_done env 3 1000 600 250 f _ (by
        show (250 : Nat) ≤ 0 + ((env.catalog.take 100).length +
          (((env.catalog.drop 100).take 100).length +
            (((env.catalog.drop 100).drop 100).length + 0)))
        rw [hc1len, hc2len, hc3len])]
    have hgen : generate_batch_embeddings env true 1000 3 600 (f + 1) []
        = ⟨0 + ((env.catalog.take 100).length +
              (((env.catalog.drop 100).take 100).length +
                (((env.catalog.drop 100).drop 100).length + 0))),
            250,
            upsertAll (upsertAll (upsertAll []
              (zipVals env (env.catalog.take 100)))
              (zipVals env ((env.catalog.drop 100).take 100)))
              (zipVals env ((env.catalog.drop 100).drop 100)),
            [] ++ [(env.catalog.take 100).map Prod.fst,
              ((env.catalog.drop 100).take 100).map Prod.fst,
              ((env.catalog.drop 100).drop 100).map Prod.fst]⟩ := by
      unfold generate_batch_embeddings
      simp only [Bool.not_true]
      rw [if_neg (show ¬ (false = true) by simp)]
      rw [hmiss]
      rw [if_neg (show ¬ (250 : Nat) = 0 by omega)]
      rw [hrun]
    -- the final store, written as a plain append
    have hS1 : upsertAll [] (zipVals env (env.catalog.take 100))
        = [] ++ zipVals env (env.catalog.take 100) :=
      upsertAll_fresh [] _ (fun p _ => rfl)
        (by rw [zipVals_map_fst]; exact n1)
    have hd2 : ∀ p ∈ zipVals env ((env.catalog.drop 100).take 100),
        hasKey ([] ++ zipVals env (env.catalog.take 100)) p.1 = false := by
      intro p hp2
      rw [hasKey_eq_false_iff, List.nil_append, zipVals_map_fst]
      intro hmem
      have hpk : p.1 ∈ ((env.catalog.drop 100).take 100).map Prod.fst := by
        rw [← zipVals_map_fst env ((env.catalog.drop 100).take 100)]
        exact List.mem_map.mpr ⟨p, hp2, rfl⟩
      exact d1 hmem (List.mem_append.mpr (Or.inl hpk))
    have hS2 : upsertAll ([] ++ zipVals env (env.catalog.take 100))
        (zipVals env ((env.catalog.drop 100).take 100))
        = ([] ++ zipVals env (env.catalog.take 100)) ++
          zipVals env ((env.catalog.drop 100).take 100) :=
      upsertAll_fresh _ _ hd2 (by rw [zipVals_map_fst]; exact n2)
    have hd3 : ∀ p ∈ zipVals env ((env.catalog.drop 100).drop 100),
        hasKey (([] ++ zipVals env (env.catalog.take 100)) ++
          zipVals env ((env.catalog.drop 100).take 100)) p.1 = false := by
      intro p hp3
      rw [hasKey_eq_false_iff]
      have hpk : p.1 ∈ ((env.catalog.drop 100).drop 100).map Prod.fst := by
        rw [← zipVals_map_fst env ((env.catalog.drop 100).drop 100)]
        exact List.mem_map.mpr ⟨p, hp3, rfl⟩
      rw [List.nil_append, List.map_append, zipVals_map_fst,
        zipVals_map_fst, List.mem_append]
      rintro (h1 | h2)
      · exact d1 h1 (List.mem_append.mpr (Or.inr hpk))
      · exact d23 h2 hpk
    have hS3 : upsertAll (([] ++ zipVals env (env.catalog.take 100)) ++
          zipVals env ((env.catalog.drop 100).take 100))
        (zipVals env ((env.catalog.drop 100).drop 100))
        = (([] ++ zipVals env (env.catalog.take 100)) ++
            zipVals env ((env.catalog.drop 100).take 100)) ++
          zipVals env ((env.catalog.drop 100).drop 100) :=
      upsertAll_fresh _ _ hd3 (by rw [zipVals_map_fst]; exact n3)
    refine ⟨?_, ?_, ?_, ?_⟩
    · rw [hgen]
      show ([] ++ [(env.catalog.take 100).map Prod.fst,
        ((env.catalog.drop 100).take 100).map Prod.fst,
        ((env.catalog.drop 100).drop 100).map Prod.fst]).map List.length
        = [100, 100, 50]
      rw [List.nil_append]
      simp only [List.map_cons, List.map_nil, List.length_map]
      rw [hc1len, hc2len, hc3len]
    · rw [hgen]
      show 0 + ((env.catalog.take 100).length +
        (((env.catalog.drop 100).take 100).length +
          (((env.catalog.drop 100).drop 100).length + 0))) = 250
      rw [hc1len, hc2len, hc3len]
    · rw [hgen]
    · rw [hgen]
      show (upsertAll (upsertAll (upsertAll []
          (zipVals env (env.catalog.take 100)))
          (zipVals env ((env.catalog.drop 100).take 100)))
          (zipVals env ((env.catalog.drop 100).drop 100))).map Prod.fst
        = env.catalog.map Prod.fst
      rw [hS1, hS2, hS3, List.nil_append, List.map_append, List.map_append,
        zipVals_map_fst, zipVals_map_fst, zipVals_map_fst,
        List.append_assoc, ← List.map_append, ← List.map_append, hsplit]

/-- Catalog of 250 distinct identifiers for the C8 witness. -/
def cCatalog250 : Catalog := (List.range 250).map (fun i => (i, "food"))

/-- Environment for the C8 witness: error-free provider, zero clock,
futures complete in submission order within the deadline. -/
def envC8 : RunEnv :=
  ⟨cCatalog250, fun _ => [1], fun _ => false, fun _ => false, fun _ => 0,
   fun _ => List.range 3, fun _ => 3⟩

/-- Witness for C8 at a concrete environment. -/
theorem generate_parallel_scenario_witness :
    (generate_batch_embeddings envC8 true 1000 3 600 2 []).dispatched.map
        List.length = [100, 100, 50] ∧
    (generate_batch_embeddings envC8 true 1000 3 600 2 []).processed
        = 250 ∧
    (generate_batch_embeddings envC8 true 1000 3 600 2 []).target = 250 ∧
    (generate_batch_embeddings envC8 true 1000 3 600 2 []).store.map
        Prod.fst = envC8.catalog.map Prod.fst :=
  generate_parallel_scenario envC8 2 (by omega)
    (by simp [envC8, cCatalog250])
    (by
      show ((cCatalog250 : Catalog).map Prod.fst).Nodup
      unfold cCatalog250
      rw [List.map_map]
      have : (Prod.fst ∘ fun i : Nat => (i, "food")) = id := rfl
      rw [this, List.map_id]
      exact List.nodup_range 250)
    (fun _ => rfl) (fun _ => rfl)
    (fun t => by norm_num [envC8]) rfl (by norm_num [envC8])

end FoodDB
